import Mathlib

/-!
Shallow embedding of `src/backend/optimizer/prep/preptlist.c`
(target-list preprocessing for INSERT/UPDATE/DELETE).

The C module rewrites a parse-stage target list into the shape the
executor requires: one visible entry per physical attribute in schema
order for INSERT/UPDATE, merged array-element assignments, synthesized
defaults, and a trailing hidden "ctid" entry for UPDATE/DELETE.

Modelling conventions:
* machine integers become `Nat`/`Int` (no overflow is relevant here);
* `elog(ERROR, ...)` becomes `Except PgError` with a dedicated error
  constructor per message;
* catalog / type-coercion services external to the file
  (`heap_open`'s relcache lookup, `CoerceTargetExpr`, `getBaseType`,
  `coerce_type_typmod`, `get_typdefault`, `get_typlenbyval`) are an
  explicit environment `Env` of function parameters;
* the two stack locals `typlen`/`typbyval` of `build_column_default`
  are read before being assigned on one path; their indeterminate
  initial contents are modelled by the `Env` fields `junkTyplen` /
  `junkTypbyval`;
* the `#ifdef _DROP_COLUMN_HACK__` blocks are not compiled and are
  not modelled.
-/

set_option autoImplicit false

namespace Preptlist

/-- Command tags, numeric values as in `nodes.h` of this source tree. -/
def CMD_UNKNOWN : Nat := 0
def CMD_SELECT : Nat := 1
def CMD_UPDATE : Nat := 2
def CMD_INSERT : Nat := 3
def CMD_DELETE : Nat := 4
def CMD_UTILITY : Nat := 5

/-- Constant `TIDOID`, the oid of the tuple-identifier type. -/
def TIDOID : Nat := 27

/-- Constant `SelfItemPointerAttributeNumber`: the ctid system attribute number. -/
def SelfItemPointerAttributeNumber : Int := -1

/-- Constant `InvalidOid`. -/
def InvalidOid : Nat := 0

/-- Expression trees (`Node *`).  Only the variants this file inspects are
structural; every other parser expression is carried opaquely as `otherE`
with a node tag, a result type (for `exprType`) and child expressions. -/
inductive Node : Type where
  /-- A `Var` built by `makeVar(varno, varattno, vartype, vartypmod, varlevelsup)`. -/
  | varE : Nat → Int → Nat → Int → Nat → Node
  /-- A `Const` built by
  `makeConst(consttype, constlen, constvalue, constisnull, constbyval, constisset, constiscast)`. -/
  | constE : Nat → Int → Nat → Bool → Bool → Bool → Bool → Node
  /-- An `ArrayRef` with fields
  `refrestype, refelemtype, refupperindexpr, reflowerindexpr, refexpr, refassgnexpr`. -/
  | arrayRef : Nat → Nat → List Node → List Node → Option Node → Option Node → Node
  /-- Any other expression node: tag, static result type, children. -/
  | otherE : Nat → Nat → List Node → Node
deriving Inhabited

mutual

/-- Function `equal()` from `backend/nodes/equalfuncs.c` restricted to the embedded
variants: recursive, type-tag-aware deep structural comparison. -/
def nodeEqual : Node → Node → Bool
  | .varE a1 a2 a3 a4 a5, .varE b1 b2 b3 b4 b5 =>
      a1 = b1 && a2 = b2 && a3 = b3 && a4 = b4 && a5 = b5
  | .constE a1 a2 a3 a4 a5 a6 a7, .constE b1 b2 b3 b4 b5 b6 b7 =>
      a1 = b1 && a2 = b2 && a3 = b3 && a4 = b4 && a5 = b5 && a6 = b6 && a7 = b7
  | .arrayRef a1 a2 a3 a4 a5 a6, .arrayRef b1 b2 b3 b4 b5 b6 =>
      a1 = b1 && a2 = b2 && nodeListEqual a3 b3 && nodeListEqual a4 b4 &&
        nodeOptEqual a5 b5 && nodeOptEqual a6 b6
  | .otherE a1 a2 a3, .otherE b1 b2 b3 =>
      a1 = b1 && a2 = b2 && nodeListEqual a3 b3
  | _, _ => false

/-- Deep comparison of expression lists. -/
def nodeListEqual : List Node → List Node → Bool
  | [], [] => true
  | a :: as_, b :: bs => nodeEqual a b && nodeListEqual as_ bs
  | _, _ => false

/-- Deep comparison of possibly-NULL expressions (`equal(NULL, NULL)` is
true, NULL against non-NULL is false). -/
def nodeOptEqual : Option Node → Option Node → Bool
  | none, none => true
  | some a, some b => nodeEqual a b
  | _, _ => false

end

/-- Function `exprType`: the static type of an expression (external helper from
`parser/parse_expr.c`, modelled structurally on the embedded variants). -/
def exprType : Node → Nat
  | .varE _ _ vartype _ _ => vartype
  | .constE consttype _ _ _ _ _ _ => consttype
  | .arrayRef refrestype _ _ _ _ _ => refrestype
  | .otherE _ typ _ => typ

/-- A `Resdom` as built by
`makeResdom(resno, restype, restypmod, resname, resjunk)`. -/
structure Resdom : Type where
  resno : Nat
  restype : Nat
  restypmod : Int
  resname : String
  resjunk : Bool
deriving DecidableEq, Inhabited

/-- A `TargetEntry`: a resdom plus its (possibly NULL) expression. -/
structure TargetEntry : Type where
  resdom : Resdom
  expr : Option Node
deriving Inhabited

/-- The `Form_pg_attribute` fields this file reads:
`attname`, `atttypid`, `atttypmod`, `attisset`. -/
structure Attribute : Type where
  attname : String
  atttypid : Nat
  atttypmod : Int
  attisset : Bool
deriving DecidableEq, Inhabited

/-- The relcache entry (`Relation`): the ordered attribute descriptors of
`rd_att->attrs` and the parsed per-column defaults of
`rd_att->constr->defval` as pairs `(adnum, parsed adbin)`. -/
structure Relation : Type where
  attrs : List Attribute
  defvals : List (Nat × Node)
deriving Inhabited

/-- The `RangeTblEntry` fields this file reads: `relid` and whether `subquery`
is non-NULL. -/
structure RangeTblEntry : Type where
  relid : Nat
  subquery : Bool
deriving DecidableEq, Inhabited

/-- Function `rt_fetch(n, range_table)`: 1-based nth range-table entry.  The C code
never fetches out of range; out-of-range access is modelled by a dummy
invalid entry. -/
def rt_fetch (n : Nat) (range_table : List RangeTblEntry) : RangeTblEntry :=
  range_table.getD (n - 1) ⟨InvalidOid, false⟩

/-- Function `getrelid(n, range_table)`. -/
def getrelid (n : Nat) (range_table : List RangeTblEntry) : Nat :=
  (rt_fetch n range_table).relid

/-- Each distinct `elog(ERROR, ...)` message of the file. -/
inductive PgError : Type where
  /-- Message "preprocess_targetlist: subquery cannot be result relation" -/
  | resultRelationInvalid
  /-- Message "Multiple assignments to same attribute \"%s\"" -/
  | multipleAssignment : String → PgError
  /-- Message "Unexpected assignment to attribute \"%s\"" -/
  | unexpectedJunk : String → PgError
  /-- Message "Column \"%s\" is of type %s but default expression is of type %s" -/
  | defaultTypeMismatch : String → Nat → Nat → PgError
  /-- Message "expand_targetlist: unexpected command_type" -/
  | unsupportedCommandKind
deriving DecidableEq, Inhabited

/-- External services the file calls but does not define: the relcache
(`heap_open` by relid), `getBaseType`, `CoerceTargetExpr` (returning NULL
on incompatibility), `coerce_type_typmod`, `get_typdefault` and
`get_typlenbyval` from the catalogs; plus the indeterminate initial
contents of the uninitialized stack locals `typlen`/`typbyval` in
`build_column_default`. -/
structure Env : Type where
  openRel : Nat → Relation
  getBaseType : Nat → Nat
  coerceTargetExpr : Node → Nat → Nat → Int → Option Node
  coerceTypeTypmod : Node → Nat → Int → Node
  getTypdefault : Nat → Int → Option Node
  getTyplenbyval : Nat → Int × Bool
  junkTyplen : Int
  junkTypbyval : Bool

/-!
### `process_matched_tle` (lines 279-340)
-/

/-- The peeling loop of `process_matched_tle` (lines 322-325) on a
non-NULL starting node: descend through `ArrayRef` nodes having a
non-NULL `refassgnexpr` to the bottom object being assigned to. -/
def peelBottomNode : Node → Option Node
  | .arrayRef _ _ _ _ none (some _) => none
  | .arrayRef _ _ _ _ (some inner) (some _) => peelBottomNode inner
  | n => some n

/-- The peeling loop of `process_matched_tle` (lines 322-325): starting
from the prior tle's `refexpr` (possibly NULL), find the bottom object
being assigned to. -/
def peelPriorBottom : Option Node → Option Node
  | none => none
  | some n => peelBottomNode n

/-- Function `process_matched_tle(src_tle, prior_tle, attrno)` (lines 279-340):
first assignment to the attribute renumbers (or reuses) the entry;
a repeated assignment is legal only for array-element assignments over
the same bottom object and is merged by nesting the new `ArrayRef` over
the entire prior expression. -/
def process_matched_tle (src_tle : TargetEntry) (prior_tle : Option TargetEntry)
    (attrno : Nat) : Except PgError TargetEntry :=
  match prior_tle with
  | none =>
      -- lines 288-303: first assignment; recycle the TLE if resno matches
      if src_tle.resdom.resno = attrno then
        .ok src_tle
      else
        .ok ⟨{ src_tle.resdom with resno := attrno }, src_tle.expr⟩
  | some prior =>
      -- lines 309-316: both must be ArrayRefs with an assignment source
      -- and the same element type
      match src_tle.expr, prior.expr with
      | some (.arrayRef srt selt sup slo sre (some sassgn)),
        some (.arrayRef prt pelt pup plo pre (some passgn)) =>
          if selt ≠ pelt then
            .error (.multipleAssignment src_tle.resdom.resname)
          else
            -- lines 322-328: the prior expression may be a nest of
            -- ArrayRefs; its bottom object must equal the new refexpr
            if nodeOptEqual (peelPriorBottom pre) sre = false then
              .error (.multipleAssignment src_tle.resdom.resname)
            else
              -- lines 333-339: copy the src ArrayRef, then point its
              -- refexpr at the entire prior expression
              let newexpr : Node :=
                .arrayRef srt selt sup slo (some (.arrayRef prt pelt pup plo pre (some passgn)))
                  (some sassgn)
              .ok ⟨{ src_tle.resdom with resno := attrno }, some newexpr⟩
      | _, _ => .error (.multipleAssignment src_tle.resdom.resname)

/-!
### `build_column_default` (lines 351-480)
-/

/-- Function `build_column_default(rel, attrno)` (lines 351-480): per-column default
if the relation has one (coerced to the column type, a failed coercion is
fatal), otherwise a handle-sized null for set-valued attributes, otherwise
the type-level default, otherwise a null constant — the latter built from
the function's still-unassigned stack locals `typlen`/`typbyval`, since
`get_typlenbyval` only runs after the `makeConst` call in this source.
Every path finishes with `coerce_type_typmod`. -/
def build_column_default (env : Env) (rel : Relation) (attrno : Nat) :
    Except PgError Node :=
  let att_tup := rel.attrs.getD (attrno - 1) default
  let atttype := att_tup.atttypid
  let atttypmod := att_tup.atttypmod
  -- lines 365-417: the C loop scans defval[] from the last slot downward
  match (rel.defvals.reverse).find? (fun d => attrno = d.1) with
  | some d =>
      let expr := d.2
      let type_id := exprType expr
      if type_id ≠ atttype then
        match env.coerceTargetExpr expr type_id (env.getBaseType atttype) atttypmod with
        | none => .error (.defaultTypeMismatch att_tup.attname atttype type_id)
        | some expr2 => .ok (env.coerceTypeTypmod expr2 atttype atttypmod)
      else
        .ok (env.coerceTypeTypmod expr atttype atttypmod)
  | none =>
      if att_tup.attisset then
        -- lines 424-441: typlen = sizeof(Oid) = 4, typbyval = true
        .ok (env.coerceTypeTypmod (.constE atttype 4 0 true true false false)
          atttype atttypmod)
      else
        -- lines 442-470: get_typdefault, else a null constant whose
        -- constlen/constbyval come from the uninitialized locals;
        -- the subsequent get_typlenbyval result is never used
        let expr :=
          match env.getTypdefault atttype atttypmod with
          | some e => e
          | none => Node.constE atttype env.junkTyplen 0 true env.junkTypbyval false false
        let _ := env.getTyplenbyval atttype
        .ok (env.coerceTypeTypmod expr atttype atttypmod)

/-!
### `expand_targetlist` (lines 125-266)

The parallel `tlistentry_used` boolean array is modelled by pairing each
source entry with its flag; the per-attribute inner `foreach` over the
source list is `scanAttr`, the outer `for` over attributes is `attrLoop`,
and the final leftover pass is `junkLoop`.
-/

/-- Inner scan (lines 164-179): walk the source entries, merging every
unused non-junk entry whose resname equals the attribute name via
`process_matched_tle` and flagging it used; returns the accumulated match
(if any) and the updated flags. -/
def scanAttr (attrname : String) (attrno : Nat) :
    List (TargetEntry × Bool) → Option TargetEntry →
    Except PgError (Option TargetEntry × List (TargetEntry × Bool))
  | [], acc => .ok (acc, [])
  | (old_tle, used) :: rest, acc =>
      if used = false ∧ old_tle.resdom.resjunk = false ∧
          old_tle.resdom.resname = attrname then
        match process_matched_tle old_tle acc attrno with
        | .error e => .error e
        | .ok new_tle =>
            match scanAttr attrname attrno rest (some new_tle) with
            | .error e => .error e
            | .ok (res, rest2) => .ok (res, (old_tle, true) :: rest2)
      else
        match scanAttr attrname attrno rest acc with
        | .error e => .error e
        | .ok (res, rest2) => .ok (res, (old_tle, used) :: rest2)

/-- The `switch (command_type)` of lines 195-216, synthesizing the
expression for an attribute with no matching source entry: a default for
INSERT, a self `Var` for UPDATE, an error for anything else. -/
def newExprForMissing (env : Env) (rel : Relation) (command_type : Nat)
    (result_relation : Nat) (attrno : Nat) (att_tup : Attribute) :
    Except PgError Node :=
  if command_type = CMD_INSERT then
    build_column_default env rel attrno
  else if command_type = CMD_UPDATE then
    .ok (.varE result_relation (attrno : Int) att_tup.atttypid att_tup.atttypmod 0)
  else
    .error .unsupportedCommandKind

/-- The body of lines 181-224 deciding one attribute's output entry: the
merged match if the scan produced one, otherwise a freshly built entry
around the synthesized expression (`makeTargetEntry(makeResdom(attrno,
atttype, atttypmod, pstrdup(attrname), false), new_expr)`). -/
def attrEntryFor (env : Env) (rel : Relation) (command_type : Nat)
    (result_relation : Nat) (attrno : Nat) (att_tup : Attribute) :
    Option TargetEntry → Except PgError TargetEntry
  | some new_tle => .ok new_tle
  | none =>
      match newExprForMissing env rel command_type result_relation
          attrno att_tup with
      | .error e => .error e
      | .ok new_expr =>
          .ok ⟨⟨attrno, att_tup.atttypid, att_tup.atttypmod,
                att_tup.attname, false⟩, some new_expr⟩

/-- Outer attribute loop (lines 154-227): for each attribute in schema
order, collect or synthesize its target entry; returns the new entries in
order plus the final used flags. -/
def attrLoop (env : Env) (rel : Relation) (command_type : Nat)
    (result_relation : Nat) :
    Nat → List Attribute → List (TargetEntry × Bool) →
    Except PgError (List TargetEntry × List (TargetEntry × Bool))
  | _, [], st => .ok ([], st)
  | attrno, att_tup :: restAtts, st =>
      match scanAttr att_tup.attname attrno st none with
      | .error e => .error e
      | .ok (m, st2) =>
          match attrEntryFor env rel command_type result_relation attrno
              att_tup m with
          | .error e => .error e
          | .ok new_tle =>
              match attrLoop env rel command_type result_relation (attrno + 1)
                  restAtts st2 with
              | .error e => .error e
              | .ok (tles, st3) => .ok (new_tle :: tles, st3)

/-- Leftover pass (lines 236-259): every still-unused entry must be junk
(else fatal); surviving entries are renumbered to consecutive positions
continuing after the last attribute number, reusing the entry when its
resno already matches. -/
def junkLoop : Nat → List (TargetEntry × Bool) →
    Except PgError (List TargetEntry × Nat)
  | attrno, [] => .ok ([], attrno)
  | attrno, (old_tle, used) :: rest =>
      if used then
        junkLoop attrno rest
      else if old_tle.resdom.resjunk = false then
        .error (.unexpectedJunk old_tle.resdom.resname)
      else
        let tle2 :=
          if old_tle.resdom.resno = attrno then old_tle
          else ⟨{ old_tle.resdom with resno := attrno }, old_tle.expr⟩
        match junkLoop (attrno + 1) rest with
        | .error e => .error e
        | .ok (out, fin) => .ok (tle2 :: out, fin)

/-- Function `expand_targetlist(tlist, command_type, result_relation, range_table)`
(lines 125-266), instrumented with the count of relation locks still held
when control leaves the function.  `heap_open` at line 150 acquires the
lock; `heap_close` at line 261 releases it, but only the normal return
executes it — every `elog(ERROR)` exit propagates first. -/
def expand_targetlistWithLock (env : Env) (tlist : List TargetEntry)
    (command_type : Nat) (result_relation : Nat)
    (range_table : List RangeTblEntry) :
    Except PgError (List TargetEntry) × Nat :=
  let locks : Nat := 1
  let rel := env.openRel (getrelid result_relation range_table)
  let numattrs := rel.attrs.length
  match attrLoop env rel command_type result_relation 1 rel.attrs
      (tlist.map (fun t => (t, false))) with
  | .error e => (.error e, locks)
  | .ok (new_tlist, st) =>
      match junkLoop (numattrs + 1) st with
      | .error e => (.error e, locks)
      | .ok (junkTles, _) =>
          (.ok (new_tlist ++ junkTles), locks - 1)

/-- The value computed by `expand_targetlist`. -/
def expand_targetlist (env : Env) (tlist : List TargetEntry)
    (command_type : Nat) (result_relation : Nat)
    (range_table : List RangeTblEntry) : Except PgError (List TargetEntry) :=
  (expand_targetlistWithLock env tlist command_type result_relation range_table).1

/-!
### `preprocess_targetlist` (lines 51-111)

The C `List` is a mutable cons chain: `lappend` destructively extends the
list in place while `listCopy` builds a fresh chain sharing no cells.  To
state aliasing facts the driver is embedded over an explicit store of
lists addressed by identity; the pure result is recovered by running the
store program and reading the returned identity.
-/

/-- Heap of `List` values addressed by allocation index. -/
structure Store : Type where
  cells : List (List TargetEntry)

/-- Read the list at an identity (a dangling identity reads as NIL). -/
def Store.get (s : Store) (i : Nat) : List TargetEntry :=
  s.cells.getD i []

/-- Allocate a fresh list, returning its identity. -/
def Store.alloc (s : Store) (l : List TargetEntry) : Store × Nat :=
  (⟨s.cells ++ [l]⟩, s.cells.length)

/-- Overwrite the list at an identity. -/
def Store.setList (s : Store) (i : Nat) (l : List TargetEntry) : Store :=
  ⟨s.cells.set i l⟩

/-- Operation `listCopy`: a fresh list with the same contents. -/
def listCopyS (s : Store) (i : Nat) : Store × Nat :=
  s.alloc (s.get i)

/-- Operation `lappend`: destructively append one entry to the list at `i`. -/
def lappendS (s : Store) (i : Nat) (e : TargetEntry) : Store × Nat :=
  (s.setList i (s.get i ++ [e]), i)

/-- Function `preprocess_targetlist(tlist, command_type, result_relation,
range_table)` (lines 51-111) over the list store: validate the result
relation, expand for INSERT/UPDATE (into a fresh list), then for
UPDATE/DELETE append the hidden "ctid" row-locator entry — copying the
list first for DELETE so the caller's chain is untouched. -/
def preprocess_targetlistS (env : Env) (s : Store) (tlistId : Nat)
    (command_type : Nat) (result_relation : Nat)
    (range_table : List RangeTblEntry) : Except PgError (Store × Nat) :=
  if result_relation ≠ 0 ∧
      ((rt_fetch result_relation range_table).subquery = true ∨
        (rt_fetch result_relation range_table).relid = InvalidOid) then
    .error .resultRelationInvalid
  else
    let step1 : Except PgError (Store × Nat) :=
      if command_type = CMD_INSERT ∨ command_type = CMD_UPDATE then
        match expand_targetlist env (s.get tlistId) command_type
            result_relation range_table with
        | .error e => .error e
        | .ok new_tlist => .ok (s.alloc new_tlist)
      else
        .ok (s, tlistId)
    match step1 with
    | .error e => .error e
    | .ok (s1, tid1) =>
        if command_type = CMD_UPDATE ∨ command_type = CMD_DELETE then
          let resdom : Resdom :=
            ⟨(s1.get tid1).length + 1, TIDOID, -1, "ctid", true⟩
          let var : Node :=
            .varE result_relation SelfItemPointerAttributeNumber TIDOID (-1) 0
          let (s2, tid2) :=
            if command_type = CMD_DELETE then listCopyS s1 tid1 else (s1, tid1)
          let (s3, tid3) := lappendS s2 tid2 ⟨resdom, some var⟩
          .ok (s3, tid3)
        else
          .ok (s1, tid1)

/-- The pure value computed by `preprocess_targetlist`: run the store
program on a one-list store and read off the returned list. -/
def preprocess_targetlist (env : Env) (tlist : List TargetEntry)
    (command_type : Nat) (result_relation : Nat)
    (range_table : List RangeTblEntry) : Except PgError (List TargetEntry) :=
  match preprocess_targetlistS env ⟨[tlist]⟩ 0 command_type result_relation
      range_table with
  | .error e => .error e
  | .ok (s, i) => .ok (s.get i)

/-!
### Specification-side descriptions

These definitions follow the spec's words; the theorems below compare the
embedded code against them.
-/

/-- Spec §8: the expected `(position, name)` sequence of the visible
output entries — positions `start, start+1, ...` paired with the
attribute names in schema order. -/
def posNames : Nat → List Attribute → List (Nat × String)
  | _, [] => []
  | p, a :: as_ => (p, a.attname) :: posNames (p + 1) as_

/-- The source entries still unused after the attribute loop, in original
order. -/
def unusedEntries (st : List (TargetEntry × Bool)) : List TargetEntry :=
  (st.filter (fun p => p.2 = false)).map Prod.fst

/-- Spec §4.1: the surviving leftover entries "renumbered to a strictly
increasing position continuing from the last assigned attribute number
and appended unchanged otherwise", reusing an entry whose position
already matches. -/
def renumberedTail : Nat → List TargetEntry → List TargetEntry
  | _, [] => []
  | p, e :: es =>
      (if e.resdom.resno = p then e else ⟨{ e.resdom with resno := p }, e.expr⟩) ::
        renumberedTail (p + 1) es

/-!
### Concrete fixtures for witnesses and counterexamples
-/

/-- A single-attribute relation: column "a" of type oid 23, no defaults. -/
def relA : Relation := ⟨[⟨"a", 23, -1, false⟩], []⟩

/-- A benign environment over `relA`: identity coercions, no type-level
defaults, catalog length (4, by-value); the uninitialized locals of
`build_column_default` happen to hold `(-1, false)`. -/
def env1 : Env :=
  { openRel := fun _ => relA
    getBaseType := id
    coerceTargetExpr := fun e _ _ _ => some e
    coerceTypeTypmod := fun e _ _ => e
    getTypdefault := fun _ _ => none
    getTyplenbyval := fun _ => (4, true)
    junkTyplen := -1
    junkTypbyval := false }

/-- Like `env1` but the relation has no attributes at all. -/
def envNoAttrs : Env := { env1 with openRel := fun _ => ⟨[], []⟩ }

/-- Like `env1` but the uninitialized locals happen to hold `(8, true)`. -/
def env1J : Env := { env1 with junkTyplen := 8, junkTypbyval := true }

/-- A one-entry range table for result relation 1. -/
def rt1 : List RangeTblEntry := [⟨10, false⟩]

/-- A plain whole-column assignment to "a". -/
def tleA : TargetEntry :=
  ⟨⟨1, 23, -1, "a", false⟩, some (.constE 23 4 7 false true false false)⟩

/-- A non-junk entry whose name matches no attribute. -/
def tleZ : TargetEntry :=
  ⟨⟨5, 23, -1, "zzz", false⟩, some (.constE 23 4 7 false true false false)⟩

/-- A junk entry (e.g. an ordering key) unrelated to any attribute. -/
def tleJ : TargetEntry :=
  ⟨⟨7, 23, -1, "ord", true⟩, some (.constE 23 4 9 false true false false)⟩

/-- The array column "a" being subscripted: its pre-existing value. -/
def baseVarA : Node := .varE 1 1 1007 (-1) 0

/-- An array-element assignment `a[sub] := v` as the parser would build
it: an `ArrayRef` whose base is `baseVarA`. -/
def arrTle (sub v : Nat) : TargetEntry :=
  ⟨⟨1, 1007, -1, "a", false⟩,
   some (.arrayRef 1007 23 [.constE 23 4 sub false true false false] []
     (some baseVarA) (some (.constE 23 4 v false true false false)))⟩

/-!
## Theorems

### Shared lemmas about `process_matched_tle`
-/

theorem process_matched_tle_resdom (src_tle : TargetEntry)
    (prior_tle : Option TargetEntry) (attrno : Nat) (t : TargetEntry)
    (h : process_matched_tle src_tle prior_tle attrno = .ok t) :
    t.resdom.resno = attrno ∧ t.resdom.resname = src_tle.resdom.resname ∧
      t.resdom.resjunk = src_tle.resdom.resjunk := by
  cases prior_tle with
  | none =>
      simp only [process_matched_tle] at h
      split at h
      · next hres =>
          simp only [Except.ok.injEq] at h
          subst h
          exact ⟨hres, rfl, rfl⟩
      · simp only [Except.ok.injEq] at h
        subst h
        exact ⟨rfl, rfl, rfl⟩
  | some prior =>
      simp only [process_matched_tle] at h
      split at h
      · split at h
        · exact absurd h (by simp)
        · split at h
          · exact absurd h (by simp)
          · simp only [Except.ok.injEq] at h
            subst h
            exact ⟨rfl, rfl, rfl⟩
      · exact absurd h (by simp)

theorem process_matched_tle_total (src_tle : TargetEntry) (prior : TargetEntry)
    (attrno : Nat) :
    (∃ t, process_matched_tle src_tle (some prior) attrno = .ok t) ∨
      process_matched_tle src_tle (some prior) attrno =
        .error (.multipleAssignment src_tle.resdom.resname) := by
  simp only [process_matched_tle]
  split
  · split
    · exact Or.inr rfl
    · split
      · exact Or.inr rfl
      · exact Or.inl ⟨_, rfl⟩
  · exact Or.inr rfl

/-!
### C2: merging nests the new array assignment over the whole prior
expression
-/

/-- C2: when a later source-order match is merged onto a prior merged
result for the same attribute, the output entry's expression is an
array-element-assignment node copying the new match's subscripts,
assigned value, and element type, whose base is the entire prior merged
expression — later matches become the outer nesting layers. -/
theorem process_matched_tle_merge_nests (src_tle prior : TargetEntry)
    (attrno : Nat) (t : TargetEntry) (srt selt : Nat) (sup slo : List Node)
    (sre sra : Option Node)
    (hsrc : src_tle.expr = some (.arrayRef srt selt sup slo sre sra))
    (h : process_matched_tle src_tle (some prior) attrno = .ok t) :
    t.expr = some (.arrayRef srt selt sup slo prior.expr sra) ∧
      t.resdom.resno = attrno ∧
      t.resdom.resname = src_tle.resdom.resname := by
  simp only [process_matched_tle] at h
  split at h
  · next pat1 pat2 =>
      rw [hsrc] at pat1
      simp only [Option.some.injEq, Node.arrayRef.injEq] at pat1
      obtain ⟨e1, e2, e3, e4, e5, e6⟩ := pat1
      split at h
      · exact absurd h (by simp)
      · split at h
        · exact absurd h (by simp)
        · simp only [Except.ok.injEq] at h
          subst h
          subst e1; subst e2; subst e3; subst e4; subst e5
          rw [← pat2, ← e6]
          exact ⟨rfl, rfl, rfl⟩
  · next hfall =>
      exact absurd h (by simp)

/-- Witness for C2: merging `a[1] := 100` then `a[3] := 200` in one
attribute pass produces a single entry whose expression nests the second
assignment (subscript 3) as the outer layer over the first (subscript 1),
both via the theorem and end-to-end through `expand_targetlist`. -/
theorem process_matched_tle_merge_nests_witness :
    (process_matched_tle (arrTle 3 200) (some (arrTle 1 100)) 1 =
        .ok ⟨⟨1, 1007, -1, "a", false⟩,
          some (.arrayRef 1007 23 [.constE 23 4 3 false true false false] []
            ((arrTle 1 100).expr)
            (some (.constE 23 4 200 false true false false)))⟩) ∧
    ((⟨⟨1, 1007, -1, "a", false⟩,
        some (.arrayRef 1007 23 [.constE 23 4 3 false true false false] []
          ((arrTle 1 100).expr)
          (some (.constE 23 4 200 false true false false)))⟩ : TargetEntry).expr =
      some (.arrayRef 1007 23 [.constE 23 4 3 false true false false] []
        ((arrTle 1 100).expr)
        (some (.constE 23 4 200 false true false false)))) ∧
    expand_targetlist env1 [arrTle 1 100, arrTle 3 200] CMD_UPDATE 1 rt1 =
      .ok [⟨⟨1, 1007, -1, "a", false⟩,
        some (.arrayRef 1007 23 [.constE 23 4 3 false true false false] []
          ((arrTle 1 100).expr)
          (some (.constE 23 4 200 false true false false)))⟩] :=
  ⟨rfl,
   (process_matched_tle_merge_nests (arrTle 3 200) (arrTle 1 100) 1 _
      1007 23 [.constE 23 4 3 false true false false] [] (some baseVarA)
      (some (.constE 23 4 200 false true false false)) rfl rfl).1,
   rfl⟩

/-!
### C3: conditions for a second match on the same attribute
-/

/-- C3: a second source entry matching an attribute with a prior merged
result succeeds exactly when both expressions are array-element
assignments with a present assigned value and identical element type and
the innermost base of the prior result (peeled through nested
array-element assignments) is structurally equal to the new match's base;
in every other case the merge fails with the multiple-assignment
conflict. -/
theorem process_matched_tle_second_match_conditions (src_tle prior : TargetEntry)
    (attrno : Nat) :
    ((∃ t, process_matched_tle src_tle (some prior) attrno = .ok t) ↔
      (∃ srt selt sup slo sre sassgn prt pup plo pre passgn,
        src_tle.expr = some (.arrayRef srt selt sup slo sre (some sassgn)) ∧
        prior.expr = some (.arrayRef prt selt pup plo pre (some passgn)) ∧
        nodeOptEqual (peelPriorBottom pre) sre = true)) ∧
    (process_matched_tle src_tle (some prior) attrno =
        .error (.multipleAssignment src_tle.resdom.resname) ↔
      ¬(∃ srt selt sup slo sre sassgn prt pup plo pre passgn,
        src_tle.expr = some (.arrayRef srt selt sup slo sre (some sassgn)) ∧
        prior.expr = some (.arrayRef prt selt pup plo pre (some passgn)) ∧
        nodeOptEqual (peelPriorBottom pre) sre = true)) := by
  have hok : (∃ t, process_matched_tle src_tle (some prior) attrno = .ok t) ↔
      (∃ srt selt sup slo sre sassgn prt pup plo pre passgn,
        src_tle.expr = some (.arrayRef srt selt sup slo sre (some sassgn)) ∧
        prior.expr = some (.arrayRef prt selt pup plo pre (some passgn)) ∧
        nodeOptEqual (peelPriorBottom pre) sre = true) := by
    constructor
    · rintro ⟨t, ht⟩
      simp only [process_matched_tle] at ht
      split at ht
      · next pat1 pat2 =>
          split at ht
          · exact absurd ht (by simp)
          · split at ht
            · exact absurd ht (by simp)
            · next hne hf =>
                have helt : _ = _ := not_ne_iff.mp hne
                have htrue := Bool.not_eq_false _ |>.mp hf
                subst helt
                exact ⟨_, _, _, _, _, _, _, _, _, _, _, pat1, pat2, htrue⟩
      · exact absurd ht (by simp)
    · rintro ⟨srt, selt, sup, slo, sre, sassgn, prt, pup, plo, pre, passgn,
        h1, h2, h3⟩
      refine ⟨⟨{ src_tle.resdom with resno := attrno },
        some (.arrayRef srt selt sup slo prior.expr (some sassgn))⟩, ?_⟩
      simp only [process_matched_tle, h1, h2]
      simp [h3]
  refine ⟨hok, ?_, ?_⟩
  · intro herr hC
    obtain ⟨t, ht⟩ := hok.mpr hC
    rw [herr] at ht
    exact absurd ht (by simp)
  · intro hC
    rcases process_matched_tle_total src_tle prior attrno with h | h
    · exact absurd (hok.mp h) hC
    · exact h

/-- Witness for C3: two whole-column (non-array) assignments to the same
attribute fail the conditions, so the merge reports the
multiple-assignment conflict for column "a". -/
theorem process_matched_tle_second_match_conditions_witness :
    process_matched_tle tleA (some tleA) 1 =
      .error (.multipleAssignment "a") :=
  (process_matched_tle_second_match_conditions tleA tleA 1).2.mpr
    (by
      rintro ⟨srt, selt, sup, slo, sre, sassgn, prt, pup, plo, pre, passgn,
        h1, h2, h3⟩
      simp [tleA] at h1)

/-!
### C4: the synthesized NULL constant for a column with no default
-/

/-- C4 (code evaluated at the failing input): for column "a" of `relA`
(declared type 23, no per-column default, not set-valued, no type-level
default), the null constant is built from whatever the uninitialized
locals `typlen`/`typbyval` happen to hold — `(-1, false)` under `env1`,
`(8, true)` under `env1J` — while the catalog's length/by-value data for
type 23 is `(4, true)` in both environments; `get_typlenbyval` runs only
after the constant is built, so the claimed "length and by-value
representation of the declared type" never reach the constant. -/
theorem build_column_default_null_const_uses_junk :
    build_column_default env1 relA 1 =
      .ok (.constE 23 (-1) 0 true false false false) ∧
    build_column_default env1J relA 1 =
      .ok (.constE 23 8 0 true true false false) ∧
    (env1.getTyplenbyval 23).1 = 4 ∧ (env1.getTyplenbyval 23).2 = true ∧
    (env1J.getTyplenbyval 23).1 = 4 ∧ (env1J.getTyplenbyval 23).2 = true :=
  ⟨rfl, rfl, rfl, rfl, rfl, rfl⟩

/-!
### C5: the hidden "ctid" entry appended for UPDATE/DELETE
-/

/-- C5: for every UPDATE or DELETE input on which preprocessing
succeeds, the output is the pre-append list plus exactly one trailing
hidden entry named "ctid" of the row-locator type, whose position is the
pre-append length plus one (so it is last), and whose expression is a
`Var` for the target relation's self item-pointer attribute; for DELETE
the pre-append list is the caller's original list. -/
theorem preprocess_targetlist_appends_ctid (env : Env)
    (tlist : List TargetEntry) (command_type result_relation : Nat)
    (range_table : List RangeTblEntry) (l : List TargetEntry)
    (hcmd : command_type = CMD_UPDATE ∨ command_type = CMD_DELETE)
    (h : preprocess_targetlist env tlist command_type result_relation
        range_table = .ok l) :
    ∃ pre, l = pre ++ [⟨⟨pre.length + 1, TIDOID, -1, "ctid", true⟩,
        some (.varE result_relation SelfItemPointerAttributeNumber TIDOID
          (-1) 0)⟩] ∧
      pre.length + 1 = l.length ∧
      (command_type = CMD_DELETE → pre = tlist) := by
  by_cases hsan : result_relation ≠ 0 ∧
      ((rt_fetch result_relation range_table).subquery = true ∨
        (rt_fetch result_relation range_table).relid = InvalidOid)
  · rcases hcmd with hcmd | hcmd <;> subst hcmd <;>
      simp [preprocess_targetlist, preprocess_targetlistS, hsan] at h
  · rcases hcmd with hcmd | hcmd
    · subst hcmd
      rcases hexp : expand_targetlist env tlist CMD_UPDATE result_relation
          range_table with e | nt
      · simp only [CMD_UPDATE] at hexp
        simp [preprocess_targetlist, preprocess_targetlistS, hsan, hexp,
          CMD_UPDATE, CMD_INSERT, CMD_DELETE, Store.get, List.getD] at h
      · simp only [CMD_UPDATE] at hexp
        have hl : l = nt ++ [⟨⟨nt.length + 1, TIDOID, -1, "ctid", true⟩,
            some (.varE result_relation SelfItemPointerAttributeNumber TIDOID
              (-1) 0)⟩] := by
          simp [preprocess_targetlist, preprocess_targetlistS, hsan, hexp,
            CMD_UPDATE, CMD_INSERT, CMD_DELETE, Store.get, Store.alloc,
            Store.setList, lappendS, listCopyS, List.getD] at h
          exact h.symm
        exact ⟨nt, hl, by simp [hl], fun hbad => absurd hbad (by decide)⟩
    · subst hcmd
      have hl : l = tlist ++ [⟨⟨tlist.length + 1, TIDOID, -1, "ctid", true⟩,
          some (.varE result_relation SelfItemPointerAttributeNumber TIDOID
            (-1) 0)⟩] := by
        simp [preprocess_targetlist, preprocess_targetlistS, hsan,
          CMD_UPDATE, CMD_INSERT, CMD_DELETE, Store.get, Store.alloc,
          Store.setList, lappendS, listCopyS, List.getD] at h
        exact h.symm
      exact ⟨tlist, hl, by simp [hl], fun _ => rfl⟩

/-- Witness for C5: a concrete DELETE run; the output is the original
one-entry list plus the trailing hidden "ctid" entry at position 2. -/
theorem preprocess_targetlist_appends_ctid_witness :
    ∃ pre, preprocess_targetlist env1 [tleA] CMD_DELETE 1 rt1 =
        .ok (pre ++ [⟨⟨pre.length + 1, TIDOID, -1, "ctid", true⟩,
          some (.varE 1 SelfItemPointerAttributeNumber TIDOID (-1) 0)⟩]) ∧
      pre = [tleA] := by
  have h0 : preprocess_targetlist env1 [tleA] CMD_DELETE 1 rt1 =
      .ok [tleA, ⟨⟨2, TIDOID, -1, "ctid", true⟩,
        some (.varE 1 SelfItemPointerAttributeNumber TIDOID (-1) 0)⟩] := rfl
  obtain ⟨pre, h1, _h2, h3⟩ := preprocess_targetlist_appends_ctid env1 [tleA]
    CMD_DELETE 1 rt1 _ (Or.inr rfl) h0
  exact ⟨pre, by rw [h0]; exact congrArg Except.ok h1, h3 rfl⟩

/-!
### C6: DELETE never mutates the caller's original list
-/

/-- C6: running the DELETE path of preprocessing over the list store
leaves the list at the caller's identity exactly as it was — the
row-locator entry is appended to a fresh `listCopy`, whose identity is
returned instead. -/
theorem preprocess_targetlistS_delete_preserves (env : Env) (s : Store)
    (tlistId result_relation : Nat) (range_table : List RangeTblEntry)
    (s2 : Store) (rid : Nat)
    (hid : tlistId < s.cells.length)
    (h : preprocess_targetlistS env s tlistId CMD_DELETE result_relation
        range_table = .ok (s2, rid)) :
    s2.get tlistId = s.get tlistId ∧ rid ≠ tlistId := by
  by_cases hsan : result_relation ≠ 0 ∧
      ((rt_fetch result_relation range_table).subquery = true ∨
        (rt_fetch result_relation range_table).relid = InvalidOid)
  · simp [preprocess_targetlistS, hsan] at h
  · simp [preprocess_targetlistS, hsan, CMD_UPDATE, CMD_INSERT, CMD_DELETE,
      Store.alloc, Store.setList, listCopyS, lappendS, Store.get] at h
    obtain ⟨hs2, hrid⟩ := h
    subst hs2
    subst hrid
    constructor
    · simp only [Store.get, List.getD_eq_getElem?_getD]
      rw [List.getElem?_append_left hid]
    · omega

/-- Witness for C6: a concrete store holding one list; after the DELETE
path runs, the original identity still holds the original one-entry
list, and the returned identity is a different one. -/
theorem preprocess_targetlistS_delete_preserves_witness :
    (Store.get (Store.mk [[tleA], [tleA, tleA]]) 0 = [tleA]) ∧
    ∀ s2 rid, preprocess_targetlistS env1 ⟨[[tleA], [tleA, tleA]]⟩ 0
        CMD_DELETE 1 rt1 = .ok (s2, rid) →
      s2.get 0 = [tleA] ∧ rid ≠ 0 := by
  refine ⟨rfl, fun s2 rid h => ?_⟩
  have := preprocess_targetlistS_delete_preserves env1 ⟨[[tleA], [tleA, tleA]]⟩
    0 1 rt1 s2 rid (by simp) h
  exact ⟨this.1, this.2⟩

/-!
### Shared lemmas about the attribute scan
-/

theorem scanAttr_entries (attrname : String) (attrno : Nat) :
    ∀ (st : List (TargetEntry × Bool)) (acc res : Option TargetEntry)
      (st2 : List (TargetEntry × Bool)),
      scanAttr attrname attrno st acc = .ok (res, st2) →
      st2.map Prod.fst = st.map Prod.fst := by
  intro st
  induction st with
  | nil =>
      intro acc res st2 h
      simp only [scanAttr, Except.ok.injEq, Prod.mk.injEq] at h
      obtain ⟨-, h2⟩ := h
      subst h2
      rfl
  | cons p rest ih =>
      intro acc res st2 h
      obtain ⟨old_tle, used⟩ := p
      simp only [scanAttr] at h
      split at h
      · split at h
        · exact absurd h (by simp)
        · split at h
          · exact absurd h (by simp)
          · next res0 rest2 hrec =>
              simp only [Except.ok.injEq, Prod.mk.injEq] at h
              obtain ⟨h1, h2⟩ := h
              subst h1
              subst h2
              simpa using ih _ _ _ hrec
      · split at h
        · exact absurd h (by simp)
        · next res0 rest2 hrec =>
            simp only [Except.ok.injEq, Prod.mk.injEq] at h
            obtain ⟨h1, h2⟩ := h
            subst h1
            subst h2
            simpa using ih _ _ _ hrec

theorem scanAttr_some (attrname : String) (attrno : Nat) :
    ∀ (st : List (TargetEntry × Bool)) (acc res : Option TargetEntry)
      (st2 : List (TargetEntry × Bool)),
      scanAttr attrname attrno st acc = .ok (res, st2) →
      (∀ u, acc = some u → u.resdom.resno = attrno ∧
        u.resdom.resname = attrname ∧ u.resdom.resjunk = false) →
      ∀ t, res = some t → t.resdom.resno = attrno ∧
        t.resdom.resname = attrname ∧ t.resdom.resjunk = false := by
  intro st
  induction st with
  | nil =>
      intro acc res st2 h hacc t ht
      simp only [scanAttr, Except.ok.injEq, Prod.mk.injEq] at h
      obtain ⟨h1, -⟩ := h
      exact hacc t (h1.trans ht)
  | cons p rest ih =>
      intro acc res st2 h hacc t ht
      obtain ⟨old_tle, used⟩ := p
      simp only [scanAttr] at h
      split at h
      · next hcond =>
          obtain ⟨-, hjunk, hname⟩ := hcond
          split at h
          · exact absurd h (by simp)
          · next new_tle hp =>
              obtain ⟨hno, hnm, hjk⟩ :=
                process_matched_tle_resdom old_tle acc attrno new_tle hp
              split at h
              · exact absurd h (by simp)
              · next res0 rest2 hrec =>
                  simp only [Except.ok.injEq, Prod.mk.injEq] at h
                  obtain ⟨h1, -⟩ := h
                  subst h1
                  refine ih _ _ _ hrec ?_ t ht
                  intro u hu
                  obtain rfl : new_tle = u := Option.some.inj hu
                  exact ⟨hno, hnm.trans hname, hjk.trans hjunk⟩
      · split at h
        · exact absurd h (by simp)
        · next res0 rest2 hrec =>
            simp only [Except.ok.injEq, Prod.mk.injEq] at h
            obtain ⟨h1, -⟩ := h
            subst h1
            exact ih _ _ _ hrec hacc t ht

theorem scanAttr_found (attrname : String) (attrno : Nat) :
    ∀ (st : List (TargetEntry × Bool)) (res : Option TargetEntry)
      (st2 : List (TargetEntry × Bool)),
      scanAttr attrname attrno st none = .ok (res, st2) →
      ∀ t, res = some t →
      ∃ p ∈ st, p.2 = false ∧ p.1.resdom.resjunk = false ∧
        p.1.resdom.resname = attrname := by
  intro st
  induction st with
  | nil =>
      intro res st2 h t ht
      simp only [scanAttr, Except.ok.injEq, Prod.mk.injEq] at h
      obtain ⟨h1, -⟩ := h
      exact absurd (h1.trans ht) (by simp)
  | cons p rest ih =>
      intro res st2 h t ht
      obtain ⟨old_tle, used⟩ := p
      simp only [scanAttr] at h
      split at h
      · next hcond =>
          obtain ⟨hused, hjunk, hname⟩ := hcond
          exact ⟨(old_tle, used), List.mem_cons_self _ _, hused, hjunk, hname⟩
      · split at h
        · exact absurd h (by simp)
        · next res0 rest2 hrec =>
            simp only [Except.ok.injEq, Prod.mk.injEq] at h
            obtain ⟨h1, -⟩ := h
            subst h1
            obtain ⟨q, hq, hprops⟩ := ih _ _ hrec t ht
            exact ⟨q, List.mem_cons_of_mem _ hq, hprops⟩

theorem scanAttr_no_match (attrname : String) (attrno : Nat) :
    ∀ (st : List (TargetEntry × Bool)) (acc : Option TargetEntry),
      (∀ p ∈ st, p.2 = true ∨ p.1.resdom.resjunk = true ∨
        p.1.resdom.resname ≠ attrname) →
      scanAttr attrname attrno st acc = .ok (acc, st) := by
  intro st
  induction st with
  | nil => intro acc _; rfl
  | cons p rest ih =>
      intro acc hnone
      obtain ⟨old_tle, used⟩ := p
      have hhead := hnone (old_tle, used) (List.mem_cons_self _ _)
      have hrest : ∀ p ∈ rest, p.2 = true ∨ p.1.resdom.resjunk = true ∨
          p.1.resdom.resname ≠ attrname :=
        fun q hq => hnone q (List.mem_cons_of_mem _ hq)
      simp only [scanAttr]
      rw [if_neg, ih acc hrest]
      rintro ⟨h1, h2, h3⟩
      rcases hhead with hh | hh | hh
      · rw [h1] at hh; cases hh
      · rw [h2] at hh; cases hh
      · exact hh h3

/-!
### Shared lemmas about the attribute loop
-/

theorem attrLoop_output (env : Env) (rel : Relation)
    (command_type result_relation : Nat) :
    ∀ (atts : List Attribute) (attrno : Nat) (st : List (TargetEntry × Bool))
      (A : List TargetEntry) (st2 : List (TargetEntry × Bool)),
      attrLoop env rel command_type result_relation attrno atts st =
        .ok (A, st2) →
      A.map (fun t => (t.resdom.resno, t.resdom.resname)) =
          posNames attrno atts ∧
        ∀ t ∈ A, t.resdom.resjunk = false := by
  intro atts
  induction atts with
  | nil =>
      intro attrno st A st2 h
      simp only [attrLoop, Except.ok.injEq, Prod.mk.injEq] at h
      obtain ⟨h1, -⟩ := h
      subst h1
      simp [posNames]
  | cons att_tup restAtts ih =>
      intro attrno st A st2 h
      simp only [attrLoop] at h
      split at h
      · exact absurd h (by simp)
      · next m st' hscan =>
          split at h
          · exact absurd h (by simp)
          · next new_tle htle =>
              split at h
              · exact absurd h (by simp)
              · next tles st3 hrec =>
                  simp only [Except.ok.injEq, Prod.mk.injEq] at h
                  obtain ⟨h1, -⟩ := h
                  subst h1
                  have hprops : new_tle.resdom.resno = attrno ∧
                      new_tle.resdom.resname = att_tup.attname ∧
                      new_tle.resdom.resjunk = false := by
                    cases m with
                    | some t =>
                        simp only [attrEntryFor, Except.ok.injEq] at htle
                        subst htle
                        exact scanAttr_some att_tup.attname attrno st none
                          (some t) st' hscan (fun u hu => by cases hu) t rfl
                    | none =>
                        simp only [attrEntryFor] at htle
                        split at htle
                        · cases htle
                        · simp only [Except.ok.injEq] at htle
                          subst htle
                          exact ⟨rfl, rfl, rfl⟩
                  obtain ⟨hno, hnm, hjk⟩ := hprops
                  obtain ⟨ihmap, ihjunk⟩ := ih _ _ _ _ hrec
                  refine ⟨?_, ?_⟩
                  · simp [posNames, hno, hnm, ihmap]
                  · intro t htmem
                    rcases List.mem_cons.mp htmem with rfl | htmem
                    · exact hjk
                    · exact ihjunk t htmem

theorem attrLoop_entries (env : Env) (rel : Relation)
    (command_type result_relation : Nat) :
    ∀ (atts : List Attribute) (attrno : Nat) (st : List (TargetEntry × Bool))
      (A : List TargetEntry) (st2 : List (TargetEntry × Bool)),
      attrLoop env rel command_type result_relation attrno atts st =
        .ok (A, st2) →
      st2.map Prod.fst = st.map Prod.fst := by
  intro atts
  induction atts with
  | nil =>
      intro attrno st A st2 h
      simp only [attrLoop, Except.ok.injEq, Prod.mk.injEq] at h
      obtain ⟨-, h2⟩ := h
      subst h2
      rfl
  | cons att_tup restAtts ih =>
      intro attrno st A st2 h
      simp only [attrLoop] at h
      split at h
      · exact absurd h (by simp)
      · next m st' hscan =>
          split at h
          · exact absurd h (by simp)
          · next new_tle htle =>
              split at h
              · exact absurd h (by simp)
              · next tles st3 hrec =>
                  simp only [Except.ok.injEq, Prod.mk.injEq] at h
                  obtain ⟨-, h2⟩ := h
                  subst h2
                  exact (ih _ _ _ _ hrec).trans
                    (scanAttr_entries att_tup.attname attrno st none m st' hscan)

theorem attrLoop_all_matched (env : Env) (rel : Relation)
    (command_type result_relation : Nat)
    (hc1 : command_type ≠ CMD_INSERT) (hc2 : command_type ≠ CMD_UPDATE) :
    ∀ (atts : List Attribute) (attrno : Nat) (st : List (TargetEntry × Bool))
      (A : List TargetEntry) (st2 : List (TargetEntry × Bool)),
      attrLoop env rel command_type result_relation attrno atts st =
        .ok (A, st2) →
      ∀ att ∈ atts, ∃ tle ∈ st.map Prod.fst, tle.resdom.resjunk = false ∧
        tle.resdom.resname = att.attname := by
  intro atts
  induction atts with
  | nil => intro attrno st A st2 h att hmem; cases hmem
  | cons att_tup restAtts ih =>
      intro attrno st A st2 h att hmem
      simp only [attrLoop] at h
      split at h
      · exact absurd h (by simp)
      · next m st' hscan =>
          rcases hmem' : m with - | t
          · rw [hmem'] at h
            simp only [attrEntryFor, newExprForMissing, if_neg hc1,
              if_neg hc2] at h
            exact absurd h (by simp)
          · rw [hmem'] at h hscan
            rcases List.mem_cons.mp hmem with rfl | hmem2
            · obtain ⟨p, hp, hpu, hpj, hpn⟩ :=
                scanAttr_found att.attname attrno st (some t) st' hscan t rfl
              exact ⟨p.1, List.mem_map_of_mem _ hp, hpj, hpn⟩
            · simp only [attrEntryFor] at h
              split at h
              · exact absurd h (by simp)
              · next tles st3 hrec =>
                  obtain ⟨tle, htle, hprops⟩ := ih _ _ _ _ hrec att hmem2
                  rw [scanAttr_entries att_tup.attname attrno st none (some t)
                    st' hscan] at htle
                  exact ⟨tle, htle, hprops⟩

/-!
### Shared lemmas about the leftover pass
-/

theorem unusedEntries_cons_true (tle : TargetEntry)
    (st : List (TargetEntry × Bool)) :
    unusedEntries ((tle, true) :: st) = unusedEntries st := by
  simp [unusedEntries]

theorem unusedEntries_cons_false (tle : TargetEntry)
    (st : List (TargetEntry × Bool)) :
    unusedEntries ((tle, false) :: st) = tle :: unusedEntries st := by
  simp [unusedEntries]

theorem junkLoop_ok : ∀ (st : List (TargetEntry × Bool)) (attrno : Nat)
    (out : List TargetEntry) (fino : Nat),
    junkLoop attrno st = .ok (out, fino) →
    (∀ e ∈ unusedEntries st, e.resdom.resjunk = true) ∧
      out = renumberedTail attrno (unusedEntries st) := by
  intro st
  induction st with
  | nil =>
      intro attrno out fino h
      simp only [junkLoop, Except.ok.injEq, Prod.mk.injEq] at h
      obtain ⟨h1, -⟩ := h
      subst h1
      simp [unusedEntries, renumberedTail]
  | cons p rest ih =>
      intro attrno out fino h
      obtain ⟨old_tle, used⟩ := p
      cases used with
      | true =>
          simp only [junkLoop, if_true] at h
          rw [unusedEntries_cons_true]
          exact ih attrno out fino h
      | false =>
          simp only [junkLoop, Bool.false_eq_true, if_false] at h
          split at h
          · exact absurd h (by simp)
          · next hjunk =>
              have hjunk' : old_tle.resdom.resjunk = true :=
                Bool.not_eq_false _ |>.mp hjunk
              split at h
              · exact absurd h (by simp)
              · next out' fino' hrec =>
                  simp only [Except.ok.injEq, Prod.mk.injEq] at h
                  obtain ⟨h1, -⟩ := h
                  subst h1
                  obtain ⟨ihjunk, ihout⟩ := ih (attrno + 1) out' fino' hrec
                  rw [unusedEntries_cons_false]
                  refine ⟨?_, ?_⟩
                  · intro e hmem
                    rcases List.mem_cons.mp hmem with rfl | hmem
                    · exact hjunk'
                    · exact ihjunk e hmem
                  · simp [renumberedTail, ihout]

theorem junkLoop_error : ∀ (st : List (TargetEntry × Bool)) (attrno : Nat),
    (∃ p ∈ st, p.2 = false ∧ p.1.resdom.resjunk = false) →
    ∃ nm, junkLoop attrno st = .error (.unexpectedJunk nm) := by
  intro st
  induction st with
  | nil =>
      intro attrno hex
      obtain ⟨p, hp, -⟩ := hex
      cases hp
  | cons q rest ih =>
      intro attrno hex
      obtain ⟨old_tle, used⟩ := q
      cases used with
      | true =>
          obtain ⟨p, hp, hpu, hpj⟩ := hex
          rcases List.mem_cons.mp hp with rfl | hp2
          · cases hpu
          · obtain ⟨nm, hnm⟩ := ih attrno ⟨p, hp2, hpu, hpj⟩
            exact ⟨nm, by simpa [junkLoop] using hnm⟩
      | false =>
          by_cases hjunk : old_tle.resdom.resjunk = false
          · exact ⟨old_tle.resdom.resname, by simp [junkLoop, hjunk]⟩
          · obtain ⟨p, hp, hpu, hpj⟩ := hex
            rcases List.mem_cons.mp hp with rfl | hp2
            · exact absurd hpj hjunk
            · obtain ⟨nm, hnm⟩ := ih (attrno + 1) ⟨p, hp2, hpu, hpj⟩
              exact ⟨nm, by simp [junkLoop, hjunk, hnm]⟩

theorem renumberedTail_resno : ∀ (l : List TargetEntry) (p : Nat),
    (renumberedTail p l).map (fun t => t.resdom.resno) =
      List.range' p l.length := by
  intro l
  induction l with
  | nil => intro p; simp [renumberedTail]
  | cons e es ih =>
      intro p
      by_cases he : e.resdom.resno = p
      · simp [renumberedTail, he, ih, List.range'_succ]
      · simp [renumberedTail, he, ih, List.range'_succ]

theorem renumberedTail_junk : ∀ (l : List TargetEntry) (p : Nat),
    (∀ e ∈ l, e.resdom.resjunk = true) →
    ∀ t ∈ renumberedTail p l, t.resdom.resjunk = true := by
  intro l
  induction l with
  | nil => intro p _ t ht; cases ht
  | cons e es ih =>
      intro p hl t ht
      simp only [renumberedTail] at ht
      rcases List.mem_cons.mp ht with rfl | ht2
      · have he := hl e (List.mem_cons_self _ _)
        split
        · exact he
        · exact he
      · exact ih (p + 1) (fun u hu => hl u (List.mem_cons_of_mem _ hu)) t ht2

theorem renumberedTail_same : ∀ (l : List TargetEntry) (p i : Nat),
    i < l.length →
    (l.getD i default).resdom.resno = p + i →
    (renumberedTail p l).getD i default = l.getD i default := by
  intro l
  induction l with
  | nil => intro p i hi; cases hi
  | cons e es ih =>
      intro p i hi hres
      cases i with
      | zero =>
          simp only [List.getD_cons_zero] at hres ⊢
          simp [renumberedTail, show e.resdom.resno = p by omega]
      | succ j =>
          simp only [List.getD_cons_succ] at hres ⊢
          simp only [renumberedTail, List.getD_cons_succ]
          exact ih (p + 1) j (by simpa using hi) (by omega)

/-!
### C1: visible output entries align with the physical attributes
-/

/-- C1: whenever expansion succeeds on an INSERT or UPDATE, the visible
(non-junk) entries of the output, taken in list order, carry positions
`1..N` in ascending order where `N` is the relation's attribute count,
and the entry at each position carries that attribute's name.  (In this
source tree no attribute is ever dropped — the drop-column hack is not
compiled — so every physical attribute is non-dropped.) -/
theorem expand_targetlist_visible_entries (env : Env)
    (tlist : List TargetEntry) (command_type result_relation : Nat)
    (range_table : List RangeTblEntry) (l : List TargetEntry)
    (_hcmd : command_type = CMD_INSERT ∨ command_type = CMD_UPDATE)
    (h : expand_targetlist env tlist command_type result_relation
        range_table = .ok l) :
    (l.filter (fun t => !t.resdom.resjunk)).map
        (fun t => (t.resdom.resno, t.resdom.resname)) =
      posNames 1 (env.openRel (getrelid result_relation range_table)).attrs := by
  simp only [expand_targetlist, expand_targetlistWithLock] at h
  split at h
  · exact absurd h (by simp)
  · next A st hA =>
      split at h
      · exact absurd h (by simp)
      · next J fino hJ =>
          simp only [Except.ok.injEq] at h
          subst h
          obtain ⟨hmap, hjunkA⟩ :=
            attrLoop_output env _ command_type result_relation _ 1 _ A st hA
          obtain ⟨hjunkU, hout⟩ := junkLoop_ok st _ J fino hJ
          have hfA : A.filter (fun t => !t.resdom.resjunk) = A :=
            List.filter_eq_self.mpr (fun a ha => by simp [hjunkA a ha])
          have hfJ : J.filter (fun t => !t.resdom.resjunk) = [] :=
            List.filter_eq_nil_iff.mpr (fun a ha => by
              have := renumberedTail_junk _ _ hjunkU a (hout ▸ ha)
              simp [this])
          rw [List.filter_append, hfA, hfJ, List.append_nil]
          exact hmap

/-- Witness for C1: a concrete UPDATE whose source list covers column
"a"; the visible entries of the output are exactly `[(1, "a")]`. -/
theorem expand_targetlist_visible_entries_witness :
    posNames 1 (env1.openRel (getrelid 1 rt1)).attrs = [(1, "a")] ∧
    ((([tleA] : List TargetEntry).filter (fun t => !t.resdom.resjunk)).map
        (fun t => (t.resdom.resno, t.resdom.resname)) =
      posNames 1 (env1.openRel (getrelid 1 rt1)).attrs) :=
  ⟨rfl, expand_targetlist_visible_entries env1 [tleA] CMD_UPDATE 1 rt1 [tleA]
    (Or.inr rfl) rfl⟩

/-!
### C7: leftover source entries after the attribute loop
-/

/-- C7: after the attribute loop, a still-unused non-hidden entry makes
expansion fail with the unexpected-assignment error; otherwise the
still-unused (all hidden) entries are appended at the tail in original
order, renumbered to strictly increasing positions continuing after the
last attribute number, and an entry whose position already matches its
target position is forwarded as the same entry rather than rebuilt. -/
theorem expand_targetlist_leftover_entries (env : Env)
    (tlist : List TargetEntry) (command_type result_relation : Nat)
    (range_table : List RangeTblEntry) (rel : Relation)
    (hrel : rel = env.openRel (getrelid result_relation range_table))
    (A : List TargetEntry) (st : List (TargetEntry × Bool))
    (hA : attrLoop env rel command_type result_relation 1 rel.attrs
        (tlist.map (fun t => (t, false))) = .ok (A, st)) :
    ((∃ p ∈ st, p.2 = false ∧ p.1.resdom.resjunk = false) →
      ∃ nm, expand_targetlist env tlist command_type result_relation
        range_table = .error (.unexpectedJunk nm)) ∧
    (∀ l, expand_targetlist env tlist command_type result_relation
        range_table = .ok l →
      (∀ e ∈ unusedEntries st, e.resdom.resjunk = true) ∧
      l = A ++ renumberedTail (rel.attrs.length + 1) (unusedEntries st) ∧
      (renumberedTail (rel.attrs.length + 1) (unusedEntries st)).map
          (fun t => t.resdom.resno) =
        List.range' (rel.attrs.length + 1) (unusedEntries st).length ∧
      ∀ i, i < (unusedEntries st).length →
        ((unusedEntries st).getD i default).resdom.resno =
          rel.attrs.length + 1 + i →
        (renumberedTail (rel.attrs.length + 1) (unusedEntries st)).getD i
          default = (unusedEntries st).getD i default) := by
  constructor
  · intro hex
    obtain ⟨nm, hj⟩ := junkLoop_error st (rel.attrs.length + 1) hex
    refine ⟨nm, ?_⟩
    rw [hrel] at hA hj
    simp only [expand_targetlist, expand_targetlistWithLock, hA, hj]
  · intro l hl
    rw [hrel] at hA
    simp only [expand_targetlist, expand_targetlistWithLock, hA] at hl
    split at hl
    · exact absurd hl (by simp)
    · next J fino hJ =>
        simp only [Except.ok.injEq] at hl
        subst hl
        obtain ⟨hjunkU, hout⟩ := junkLoop_ok st _ J fino hJ
        rw [hrel]
        refine ⟨hjunkU, by rw [hout], renumberedTail_resno _ _, ?_⟩
        intro i hi hres
        exact renumberedTail_same _ _ i hi hres

/-- Witness for C7: source list `[tleA, tleJ]` (a match for "a" plus an
unrelated hidden ordering entry at position 7); expansion succeeds,
relocating the hidden entry to the tail at position 2. -/
theorem expand_targetlist_leftover_entries_witness :
    (∀ e ∈ unusedEntries [(tleA, true), (tleJ, false)],
      e.resdom.resjunk = true) ∧
    expand_targetlist env1 [tleA, tleJ] CMD_UPDATE 1 rt1 =
      .ok ([tleA] ++ renumberedTail ((env1.openRel (getrelid 1 rt1)).attrs.length + 1)
        (unusedEntries [(tleA, true), (tleJ, false)])) := by
  have hA : attrLoop env1 (env1.openRel (getrelid 1 rt1)) CMD_UPDATE 1 1
      (env1.openRel (getrelid 1 rt1)).attrs
      ([tleA, tleJ].map (fun t => (t, false))) =
      .ok ([tleA], [(tleA, true), (tleJ, false)]) := rfl
  have hmain := (expand_targetlist_leftover_entries env1 [tleA, tleJ]
    CMD_UPDATE 1 rt1 (env1.openRel (getrelid 1 rt1)) rfl [tleA]
    [(tleA, true), (tleJ, false)] hA).2
  have hrun : expand_targetlist env1 [tleA, tleJ] CMD_UPDATE 1 rt1 =
      .ok [tleA, ⟨⟨2, 23, -1, "ord", true⟩,
        some (.constE 23 4 9 false true false false)⟩] := rfl
  obtain ⟨hj, hl, -, -⟩ := hmain _ hrun
  exact ⟨hj, by rw [hrun]; exact congrArg Except.ok (by rw [← hl])⟩

/-!
### Which errors each stage can raise
-/

theorem process_matched_tle_error_kind (src_tle : TargetEntry)
    (prior_tle : Option TargetEntry) (attrno : Nat) (e : PgError)
    (h : process_matched_tle src_tle prior_tle attrno = .error e) :
    ∃ nm, e = .multipleAssignment nm := by
  cases prior_tle with
  | none =>
      simp only [process_matched_tle] at h
      split at h <;> exact absurd h (by simp)
  | some prior =>
      rcases process_matched_tle_total src_tle prior attrno with ⟨t, ht⟩ | ht
      · rw [h] at ht
        exact absurd ht (by simp)
      · rw [h] at ht
        simp only [Except.error.injEq] at ht
        exact ⟨src_tle.resdom.resname, ht⟩

theorem scanAttr_error_kind (attrname : String) (attrno : Nat) :
    ∀ (st : List (TargetEntry × Bool)) (acc : Option TargetEntry)
      (e : PgError),
      scanAttr attrname attrno st acc = .error e →
      ∃ nm, e = .multipleAssignment nm := by
  intro st
  induction st with
  | nil => intro acc e h; exact absurd h (by simp [scanAttr])
  | cons p rest ih =>
      intro acc e h
      obtain ⟨old_tle, used⟩ := p
      simp only [scanAttr] at h
      split at h
      · split at h
        · next e0 hp =>
            simp only [Except.error.injEq] at h
            subst h
            exact process_matched_tle_error_kind old_tle acc attrno e0 hp
        · split at h
          · next e0 hrec =>
              simp only [Except.error.injEq] at h
              subst h
              exact ih _ _ hrec
          · exact absurd h (by simp)
      · split at h
        · next e0 hrec =>
            simp only [Except.error.injEq] at h
            subst h
            exact ih _ _ hrec
        · exact absurd h (by simp)

theorem build_column_default_error_kind (env : Env) (rel : Relation)
    (attrno : Nat) (e : PgError)
    (h : build_column_default env rel attrno = .error e) :
    ∃ c t1 t2, e = .defaultTypeMismatch c t1 t2 := by
  simp only [build_column_default] at h
  split at h
  · split at h
    · split at h
      · simp only [Except.error.injEq] at h
        exact ⟨_, _, _, h.symm⟩
      · exact absurd h (by simp)
    · exact absurd h (by simp)
  · split at h <;> exact absurd h (by simp)

theorem newExprForMissing_error_kind (env : Env) (rel : Relation)
    (command_type result_relation attrno : Nat) (att_tup : Attribute)
    (e : PgError)
    (h : newExprForMissing env rel command_type result_relation attrno
      att_tup = .error e) :
    (∃ c t1 t2, e = .defaultTypeMismatch c t1 t2) ∨
      e = .unsupportedCommandKind := by
  simp only [newExprForMissing] at h
  split at h
  · exact Or.inl (build_column_default_error_kind env rel attrno e h)
  · split at h
    · exact absurd h (by simp)
    · simp only [Except.error.injEq] at h
      exact Or.inr h.symm

theorem attrEntryFor_error_kind (env : Env) (rel : Relation)
    (command_type result_relation attrno : Nat) (att_tup : Attribute)
    (m : Option TargetEntry) (e : PgError)
    (h : attrEntryFor env rel command_type result_relation attrno att_tup m =
      .error e) :
    (∃ c t1 t2, e = .defaultTypeMismatch c t1 t2) ∨
      e = .unsupportedCommandKind := by
  cases m with
  | some t => exact absurd h (by simp [attrEntryFor])
  | none =>
      simp only [attrEntryFor] at h
      split at h
      · next e0 hmiss =>
          simp only [Except.error.injEq] at h
          subst h
          exact newExprForMissing_error_kind env rel command_type
            result_relation attrno att_tup e0 hmiss
      · exact absurd h (by simp)

theorem attrLoop_error_kind (env : Env) (rel : Relation)
    (command_type result_relation : Nat) :
    ∀ (atts : List Attribute) (attrno : Nat) (st : List (TargetEntry × Bool))
      (e : PgError),
      attrLoop env rel command_type result_relation attrno atts st =
        .error e →
      (∃ nm, e = .multipleAssignment nm) ∨
        (∃ c t1 t2, e = .defaultTypeMismatch c t1 t2) ∨
        e = .unsupportedCommandKind := by
  intro atts
  induction atts with
  | nil => intro attrno st e h; exact absurd h (by simp [attrLoop])
  | cons att_tup restAtts ih =>
      intro attrno st e h
      simp only [attrLoop] at h
      split at h
      · next e0 hscan =>
          simp only [Except.error.injEq] at h
          subst h
          exact Or.inl (scanAttr_error_kind att_tup.attname attrno st none e0
            hscan)
      · next m st' hscan =>
          split at h
          · next e0 hentry =>
              simp only [Except.error.injEq] at h
              subst h
              exact Or.inr (attrEntryFor_error_kind env rel command_type
                result_relation attrno att_tup m e0 hentry)
          · next new_tle htle =>
              split at h
              · next e0 hrec =>
                  simp only [Except.error.injEq] at h
                  subst h
                  exact ih _ _ _ hrec
              · exact absurd h (by simp)

/-!
### C8: the relation lock across error exits
-/

/-- C8 counterexample: a concrete UPDATE expansion that fails with the
unexpected-assignment error leaves the function with the relation lock
still held (count 1, not 0) — `heap_close` is only executed on the normal
return, so the claimed release on every error path does not hold in this
code. -/
theorem expand_targetlist_lock_leak_counterexample :
    (expand_targetlistWithLock env1 [tleZ] CMD_UPDATE 1 rt1).1 =
      .error (.unexpectedJunk "zzz") ∧
    (expand_targetlistWithLock env1 [tleZ] CMD_UPDATE 1 rt1).2 = 1 ∧
    (1 : Nat) ≠ 0 :=
  ⟨rfl, rfl, by decide⟩

/-- C8 (amended): the lock acquired by `heap_open` is released exactly on
the successful exits of the expansion; every error exit propagates the
failure with the lock still held (release is left to the caller's abort
machinery outside this module). -/
theorem expand_targetlistWithLock_lock_discipline (env : Env)
    (tlist : List TargetEntry) (command_type result_relation : Nat)
    (range_table : List RangeTblEntry) :
    (∀ l, (expand_targetlistWithLock env tlist command_type result_relation
        range_table).1 = .ok l →
      (expand_targetlistWithLock env tlist command_type result_relation
        range_table).2 = 0) ∧
    (∀ e, (expand_targetlistWithLock env tlist command_type result_relation
        range_table).1 = .error e →
      (expand_targetlistWithLock env tlist command_type result_relation
        range_table).2 = 1) := by
  rcases hA : attrLoop env (env.openRel (getrelid result_relation range_table))
      command_type result_relation 1
      (env.openRel (getrelid result_relation range_table)).attrs
      (tlist.map (fun t => (t, false))) with e | ⟨A, st⟩
  · refine ⟨fun l hl => ?_, fun e' _ => ?_⟩
    · simp only [expand_targetlistWithLock, hA] at hl
      cases hl
    · simp only [expand_targetlistWithLock, hA]
  · rcases hJ : junkLoop ((env.openRel (getrelid result_relation
        range_table)).attrs.length + 1) st with e | ⟨J, fino⟩
    · refine ⟨fun l hl => ?_, fun e' _ => ?_⟩
      · simp only [expand_targetlistWithLock, hA, hJ] at hl
        cases hl
      · simp only [expand_targetlistWithLock, hA, hJ]
    · refine ⟨fun l _ => ?_, fun e' he => ?_⟩
      · simp only [expand_targetlistWithLock, hA, hJ]
      · simp only [expand_targetlistWithLock, hA, hJ] at he
        cases he

/-- Witness for C8's amended theorem: a successful expansion exits with
the lock count at 0, a failing one with the lock count at 1. -/
theorem expand_targetlistWithLock_lock_discipline_witness :
    (expand_targetlistWithLock env1 [tleA] CMD_UPDATE 1 rt1).2 = 0 ∧
    (expand_targetlistWithLock env1 [] CMD_SELECT 1 rt1).2 = 1 :=
  ⟨(expand_targetlistWithLock_lock_discipline env1 [tleA] CMD_UPDATE 1
      rt1).1 [tleA] rfl,
   (expand_targetlistWithLock_lock_discipline env1 [] CMD_SELECT 1
      rt1).2 .unsupportedCommandKind rfl⟩

/-!
### C9: command kinds other than INSERT/UPDATE
-/

/-- C9 counterexample: expansion invoked with CMD_DELETE (not
INSERT/UPDATE) on a zero-attribute relation returns successfully instead
of failing — the command-kind check sits inside the no-match branch of
the attribute loop and is never reached when there is nothing to
synthesize. -/
theorem expand_targetlist_unsupported_counterexample :
    CMD_DELETE ≠ CMD_INSERT ∧ CMD_DELETE ≠ CMD_UPDATE ∧
    expand_targetlist envNoAttrs [] CMD_DELETE 1 rt1 = .ok [] :=
  ⟨by decide, by decide, rfl⟩

/-- C9 (amended): with a command kind other than INSERT/UPDATE, expansion
can succeed only when every attribute finds a non-hidden name match in
the source list; as soon as an attribute must synthesize a value — in
particular when the first attribute has no match — it fails with the
unsupported-command-kind error. -/
theorem expand_targetlist_other_command_needs_matches (env : Env)
    (tlist : List TargetEntry) (command_type result_relation : Nat)
    (range_table : List RangeTblEntry) (rel : Relation)
    (hrel : rel = env.openRel (getrelid result_relation range_table))
    (hc1 : command_type ≠ CMD_INSERT) (hc2 : command_type ≠ CMD_UPDATE) :
    (∀ l, expand_targetlist env tlist command_type result_relation
        range_table = .ok l →
      ∀ att ∈ rel.attrs, ∃ tle ∈ tlist, tle.resdom.resjunk = false ∧
        tle.resdom.resname = att.attname) ∧
    (∀ att restAtts, rel.attrs = att :: restAtts →
      (∀ tle ∈ tlist, tle.resdom.resjunk = false →
        tle.resdom.resname ≠ att.attname) →
      expand_targetlist env tlist command_type result_relation range_table =
        .error .unsupportedCommandKind) := by
  subst hrel
  constructor
  · intro l hl att hmem
    simp only [expand_targetlist, expand_targetlistWithLock] at hl
    split at hl
    · exact absurd hl (by simp)
    · next A st hA =>
        have hm := attrLoop_all_matched env _ command_type result_relation
          hc1 hc2 _ 1 _ A st hA att hmem
        simpa using hm
  · intro att restAtts hatts hnm
    have hscan : scanAttr att.attname 1 (tlist.map (fun t => (t, false)))
        none = .ok (none, tlist.map (fun t => (t, false))) := by
      apply scanAttr_no_match
      intro p hp
      obtain ⟨tle, htle, rfl⟩ := List.mem_map.mp hp
      by_cases hj : tle.resdom.resjunk = true
      · exact Or.inr (Or.inl hj)
      · exact Or.inr (Or.inr (hnm tle htle (by simpa using hj)))
    simp only [expand_targetlist, expand_targetlistWithLock, hatts, attrLoop,
      hscan, attrEntryFor, newExprForMissing, if_neg hc1, if_neg hc2]

/-- Witness for C9's amended theorem: a DELETE-kind expansion that
succeeds has a name match for the single attribute, and a SELECT-kind
expansion over the same relation with an empty source list fails with the
unsupported-command-kind error. -/
theorem expand_targetlist_other_command_needs_matches_witness :
    (∃ tle ∈ [tleA], tle.resdom.resjunk = false ∧
      tle.resdom.resname = (⟨"a", 23, -1, false⟩ : Attribute).attname) ∧
    expand_targetlist env1 [] CMD_SELECT 1 rt1 =
      .error .unsupportedCommandKind := by
  constructor
  · exact (expand_targetlist_other_command_needs_matches env1 [tleA]
      CMD_DELETE 1 rt1 (env1.openRel (getrelid 1 rt1)) rfl (by decide)
      (by decide)).1 [tleA] rfl ⟨"a", 23, -1, false⟩ (by decide)
  · exact (expand_targetlist_other_command_needs_matches env1 []
      CMD_SELECT 1 rt1 (env1.openRel (getrelid 1 rt1)) rfl (by decide)
      (by decide)).2 ⟨"a", 23, -1, false⟩ [] rfl
      (fun tle htle _ => absurd htle (by simp))

/-!
### C10: the conflict check precedes the leftover check
-/

/-- C10: any error of the per-attribute matching pass (in particular a
multiple-assignment conflict) is the error of the whole expansion, and
the unexpected-assignment error can only be reported after the whole
attribute pass has completed successfully — so an input containing both
a conflict and a junk non-hidden leftover fails with the conflict. -/
theorem expand_targetlist_conflict_before_junk (env : Env)
    (tlist : List TargetEntry) (command_type result_relation : Nat)
    (range_table : List RangeTblEntry) (rel : Relation)
    (hrel : rel = env.openRel (getrelid result_relation range_table)) :
    (∀ e, attrLoop env rel command_type result_relation 1 rel.attrs
        (tlist.map (fun t => (t, false))) = .error e →
      expand_targetlist env tlist command_type result_relation range_table =
        .error e) ∧
    (∀ nm, expand_targetlist env tlist command_type result_relation
        range_table = .error (.unexpectedJunk nm) →
      ∃ A st, attrLoop env rel command_type result_relation 1 rel.attrs
          (tlist.map (fun t => (t, false))) = .ok (A, st)) := by
  subst hrel
  constructor
  · intro e he
    simp only [expand_targetlist, expand_targetlistWithLock, he]
  · intro nm hl
    simp only [expand_targetlist, expand_targetlistWithLock] at hl
    split at hl
    · next e hA =>
        simp only [Except.error.injEq] at hl
        subst hl
        rcases attrLoop_error_kind env _ command_type result_relation _ 1 _ _
            hA with ⟨nm', h'⟩ | ⟨c, t1, t2, h'⟩ | h' <;> cases h'
    · next A st hA => exact ⟨A, st, hA⟩

/-- Witness for C10: the source list assigns "a" twice (non-array) and
also contains a non-hidden entry "zzz" matching no attribute; expansion
reports the multiple-assignment conflict, not the unexpected-assignment
error. -/
theorem expand_targetlist_conflict_before_junk_witness :
    expand_targetlist env1 [tleA, tleA, tleZ] CMD_UPDATE 1 rt1 =
      .error (.multipleAssignment "a") ∧
    expand_targetlist env1 [tleA, tleA, tleZ] CMD_UPDATE 1 rt1 ≠
      .error (.unexpectedJunk "zzz") := by
  have h2 := (expand_targetlist_conflict_before_junk env1 [tleA, tleA, tleZ]
    CMD_UPDATE 1 rt1 (env1.openRel (getrelid 1 rt1)) rfl).1
    (.multipleAssignment "a") rfl
  exact ⟨h2, by rw [h2]; simp⟩

end Preptlist
